import Mathlib

/-!
Shallow embedding of the Worldview validator (`validator/src/lib.rs`) and the
token tables generated from `spec/tokens.yaml` (`tokens_generated.rs`).
Strings are modelled as lists of characters; every definition mirrors the
corresponding Rust function.
-/

set_option maxRecDepth 10000

/-- Strings of the validator are modelled as lists of characters. -/
abbrev Str := List Char

/-- Convert a Lean string literal into the model representation. -/
def str (s : String) : Str := s.toList

/-- The Unicode White_Space property, as used by Rust `char::is_whitespace`
(`str::trim`, `str::split_whitespace`). -/
def isWhitespaceChar (c : Char) : Bool :=
  let n := c.toNat
  (0x09 ≤ n ∧ n ≤ 0x0D) ∨ n = 0x20 ∨ n = 0x85 ∨ n = 0xA0 ∨ n = 0x1680 ∨
  (0x2000 ≤ n ∧ n ≤ 0x200A) ∨ n = 0x2028 ∨ n = 0x2029 ∨ n = 0x202F ∨
  n = 0x205F ∨ n = 0x3000

/-- Drop the longest suffix whose characters satisfy `p` (used for
Rust `trim_end_matches` with a character-class pattern). -/
def dropTrailingWhile (p : Char → Bool) (s : Str) : Str :=
  (s.reverse.dropWhile p).reverse

/-- Rust `str::trim`: remove leading and trailing whitespace. -/
def trimStr (s : Str) : Str :=
  dropTrailingWhile isWhitespaceChar (s.dropWhile isWhitespaceChar)

/-- Rust `trim_end_matches(m)` for a single repeated character `m`. -/
def dropTrailingChar (m : Char) (s : Str) : Str :=
  dropTrailingWhile (fun c => c = m) s

/-- Split a list at every element satisfying `p` (separators removed).
Mirrors the splitting underlying Rust `split_whitespace` and `lines`. -/
def splitOnPred (p : Char → Bool) : Str → List Str
  | [] => [[]]
  | c :: rest =>
    if p c then
      [] :: splitOnPred p rest
    else
      match splitOnPred p rest with
      | [] => [[c]]
      | t :: ts => (c :: t) :: ts

/-- Rust `str::split_whitespace`: whitespace-delimited tokens, empties dropped. -/
def splitWhitespace (s : Str) : List Str :=
  (splitOnPred isWhitespaceChar s).filter (fun t => ¬ t.isEmpty)

/-- Last whitespace-delimited token of a string, or the empty string
(Rust `s.split_whitespace().last().unwrap_or("")`). -/
def lastTokenOf (s : Str) : Str := (splitWhitespace s).getLast?.getD []

/-- First whitespace-delimited token of a string, or the empty string
(Rust `s.split_whitespace().next().unwrap_or("")`). -/
def firstTokenOf (s : Str) : Str := (splitWhitespace s).headD []

/-- Whether `pat` occurs in `l` starting at position `i`. -/
def isPrefixAt {α : Type} [BEq α] (pat l : List α) (i : Nat) : Bool :=
  pat.isPrefixOf (l.drop i)

/-- Fuel-driven search for the first occurrence of `pat` in `l`, from
position `i` (Rust `str::find` with a string pattern). -/
def firstMatchAux {α : Type} [BEq α] (pat l : List α) : Nat → Nat → Option Nat
  | 0, _ => none
  | fuel + 1, i =>
    if isPrefixAt pat l i then some i
    else if i < l.length then firstMatchAux pat l fuel (i + 1)
    else none

/-- Position of the first occurrence of `pat` in `l` (Rust `str::find`). -/
def firstMatch {α : Type} [BEq α] (pat l : List α) : Option Nat :=
  firstMatchAux pat l (l.length + 1) 0

/-- Rust `str::contains` with a string pattern. -/
def containsSub {α : Type} [BEq α] (pat l : List α) : Bool :=
  (firstMatch pat l).isSome

/-- Fuel-driven leftmost non-overlapping matching, from position `i`
(Rust `str::match_indices`). -/
def matchIndicesAux (pat l : Str) : Nat → Nat → List Nat
  | 0, _ => []
  | fuel + 1, i =>
    if i + pat.length ≤ l.length then
      if isPrefixAt pat l i then i :: matchIndicesAux pat l fuel (i + pat.length)
      else matchIndicesAux pat l fuel (i + 1)
    else []

/-- Start positions of the leftmost non-overlapping occurrences of `pat`
in `l` (Rust `str::match_indices`). -/
def matchIndices (pat l : Str) : List Nat := matchIndicesAux pat l (l.length + 1) 0

/-- Count of leading space characters of a raw line
(Rust `count_leading_spaces`). -/
def countLeadingSpaces (line : Str) : Nat :=
  (line.takeWhile (fun c => c = ' ')).length

/-- Strip one trailing carriage return, as Rust `str::lines` does for a
line that was terminated by a carriage return and a line feed. -/
def stripCR (s : Str) : Str :=
  match s.getLast? with
  | some '\r' => s.dropLast
  | _ => s

/-- Rust `str::lines`: split at line feeds, strip a carriage return before
each line feed, and do not yield a final empty line for a trailing
terminator. -/
def splitLines (s : Str) : List Str :=
  if s = [] then []
  else if s.getLast? = some '\n' then
    ((splitOnPred (fun c => c = '\n') s).dropLast).map stripCR
  else
    let segs := splitOnPred (fun c => c = '\n') s
    segs.dropLast.map stripCR ++ [(segs.getLast?).getD []]

/-! Token definitions generated from `spec/tokens.yaml`
(`tokens_generated.rs`). -/

/-- Brief form operators defined in the Worldview spec (symbol, meaning). -/
def BRIEF_FORMS : List (Str × Str) :=
  [ (str "=>", str "causes, leads to")
  , (str "<=", str "caused by, results from")
  , (str "<>", str "mutual, bidirectional")
  , (str "><", str "tension, conflicts with")
  , (str "~", str "similar to, resembles")
  , (str "=", str "equivalent to, means")
  , (str "vs", str "in contrast to")
  , (str "//", str "regardless of") ]

/-- Modifier symbols defined in the Worldview spec (symbol, meaning). -/
def MODIFIERS : List (Str × Str) :=
  [ (str "^", str "increasing, trending up")
  , (str "v", str "decreasing, trending down")
  , (str "!", str "strong, emphatic, high confidence")
  , (str "?", str "uncertain, contested, tentative")
  , (str "*", str "notable, important, flagged") ]

/-- Inline element symbol for conditions. -/
def CONDITION_SYMBOL : Char := '|'

/-- Inline element symbol for sources. -/
def SOURCE_SYMBOL : Char := '@'

/-- Inline element symbol for references. -/
def REFERENCE_SYMBOL : Char := '&'

/-- Indentation level of a concept line (in spaces). -/
def CONCEPT_INDENT : Nat := 0

/-- Indentation level of a facet line (in spaces). -/
def FACET_INDENT : Nat := 2

/-- Indentation level of a claim line (in spaces). -/
def CLAIM_INDENT : Nat := 4

/-- Element prefix character of a facet line. -/
def FACET_PREFIX : Char := '.'

/-- Element prefix character of a claim line. -/
def CLAIM_PREFIX : Char := '-'

/-! The data model of `validator/src/lib.rs`. -/

/-- Errors that can occur during Worldview validation. -/
inductive ValidationError where
  | InvalidIndentation (line : Nat) (expected : Str) (found : Nat)
  | MissingFacetPrefix (line : Nat)
  | MissingClaimPrefix (line : Nat)
  | ConceptWithoutFacets (line : Nat) (concept : Str)
  | FacetWithoutClaims (line : Nat) (facet : Str)
  | OrphanFacet (line : Nat)
  | OrphanClaim (line : Nat)
  | EmptyClaimText (line : Nat)
  | UnexpectedIndentation (line : Nat) (found : Nat)
  | EmptyConceptName (line : Nat)
  | EmptyFacetName (line : Nat)
  | InvalidReferenceFormat (line : Nat) (reference : Str)
  | UndefinedReference (line : Nat) (reference : Str)
  | EmptyCondition (line : Nat)
  | EmptySource (line : Nat)
  | EmptyReference (line : Nat)
  | BriefFormMissingLeftOperand (line : Nat) (operator : Str)
  | BriefFormMissingRightOperand (line : Nat) (operator : Str)
  | UnclosedEvolutionMarker (line : Nat)
  | EmptyEvolutionMarker (line : Nat)
  | MalformedEvolutionMarker (line : Nat)
  | StandaloneModifier (line : Nat) (modifier : Str)
  deriving DecidableEq, Repr

/-- Rust `ValidationError::is_warning`. -/
def ValidationError.is_warning : ValidationError → Bool
  | .StandaloneModifier _ _ => true
  | _ => false

/-- The line number an error reports. -/
def errLine : ValidationError → Nat
  | .InvalidIndentation l _ _ => l
  | .MissingFacetPrefix l => l
  | .MissingClaimPrefix l => l
  | .ConceptWithoutFacets l _ => l
  | .FacetWithoutClaims l _ => l
  | .OrphanFacet l => l
  | .OrphanClaim l => l
  | .EmptyClaimText l => l
  | .UnexpectedIndentation l _ => l
  | .EmptyConceptName l => l
  | .EmptyFacetName l => l
  | .InvalidReferenceFormat l _ => l
  | .UndefinedReference l _ => l
  | .EmptyCondition l => l
  | .EmptySource l => l
  | .EmptyReference l => l
  | .BriefFormMissingLeftOperand l _ => l
  | .BriefFormMissingRightOperand l _ => l
  | .UnclosedEvolutionMarker l => l
  | .EmptyEvolutionMarker l => l
  | .MalformedEvolutionMarker l => l
  | .StandaloneModifier l _ => l

/-- A brief form operator found in a claim. -/
structure BriefFormUsage where
  operator : Str
  left_operand : Str
  right_operand : Str
  deriving DecidableEq, Repr

/-- A modifier found in a claim. -/
structure ModifierUsage where
  symbol : Char
  attached_to : Str
  deriving DecidableEq, Repr

/-- An evolution marker `[<= prior belief]`. -/
structure EvolutionMarker where
  prior_belief : Str
  deriving DecidableEq, Repr

/-- Parsed claim data. -/
structure ClaimData where
  text : Str
  conditions : List Str
  sources : List Str
  references : List Str
  brief_forms : List BriefFormUsage
  modifiers : List ModifierUsage
  evolution : Option EvolutionMarker
  deriving DecidableEq, Repr

/-- The type of a parsed line. -/
inductive LineType where
  | Blank
  | Concept (name : Str)
  | Facet (name : Str)
  | Claim (data : ClaimData)
  deriving DecidableEq, Repr

/-- A parsed line with its metadata. -/
structure ParsedLine where
  line_number : Nat
  line_type : LineType
  raw : Str
  deriving DecidableEq, Repr

instance : Inhabited ParsedLine := ⟨⟨0, .Blank, []⟩⟩

/-- Result of validation. -/
structure ValidationResult where
  errors : List ValidationError
  warnings : List ValidationError
  lines : List ParsedLine
  deriving DecidableEq, Repr

/-- Rust `ValidationResult::is_valid`. -/
def ValidationResult.is_valid (r : ValidationResult) : Bool := r.errors.isEmpty

/-- Rust `ValidationResult::has_warnings`. -/
def ValidationResult.has_warnings (r : ValidationResult) : Bool :=
  ¬ r.warnings.isEmpty

/-! The claim parser of `validator/src/lib.rs`. -/

/-- The literal marker opener searched for by `extract_evolution_marker`. -/
def evoOpen : Str := ['[', '<', '=']

/-- Rust `extract_evolution_marker`: extract `[<= prior belief]` from text.
On a closed marker, the bracketed span is removed and the trimmed pieces
before and after are concatenated; an unclosed marker leaves the text
unchanged (the later validation relies on `[<=` still being present). -/
def extract_evolution_marker (text : Str) : Str × Option EvolutionMarker :=
  match firstMatch evoOpen text with
  | none => (text, none)
  | some start =>
    match firstMatch [']'] (text.drop start) with
    | none => (text, none)
    | some e =>
      let markerContent := ((text.drop start).drop 3).take (e - 3)
      let prior_belief := trimStr markerContent
      let textBefore := text.take start
      let textAfter := (text.drop start).drop (e + 1)
      (trimStr textBefore ++ trimStr textAfter, some ⟨prior_belief⟩)

/-- State of the inline-element scan of `parse_claim`. -/
structure InlineState where
  claim_text : Str
  conditions : List Str
  sources : List Str
  references : List Str
  current_segment : Str
  in_claim : Bool
  deriving DecidableEq, Repr

/-- Initial state of the inline-element scan. -/
def initInline : InlineState :=
  { claim_text := [], conditions := [], sources := [], references := []
  , current_segment := [], in_claim := true }

/-- Flush the accumulated segment when a marker character is met: close the
claim text if it is still open, otherwise append a non-blank segment to the
conditions; then reset the accumulator. -/
def flushSegment (st : InlineState) : InlineState :=
  if st.in_claim then
    { st with claim_text := trimStr st.current_segment
            , in_claim := false, current_segment := [] }
  else if (trimStr st.current_segment).isEmpty then
    { st with current_segment := [] }
  else
    { st with conditions := st.conditions ++ [trimStr st.current_segment]
            , current_segment := [] }

/-- A character at which the greedy source/reference token collection of
`parse_claim` stops. -/
def isTokenStop (c : Char) : Bool := c = ' ' ∨ c = '|' ∨ c = '@' ∨ c = '&'

/-- The character-by-character inline-element scan of `parse_claim`,
fuel-driven (`fuel` at least the length of the remaining input). -/
def scanInlineAux : Nat → Str → InlineState → InlineState
  | 0, _, st => st
  | _ + 1, [], st => st
  | fuel + 1, c :: rest, st =>
    if c = '|' then
      scanInlineAux fuel rest (flushSegment st)
    else if c = '@' then
      let st1 := flushSegment st
      let tok := rest.takeWhile (fun x => ¬ isTokenStop x)
      let rest1 := rest.dropWhile (fun x => ¬ isTokenStop x)
      let st2 :=
        if (trimStr tok).isEmpty then st1
        else { st1 with sources := st1.sources ++ [trimStr tok] }
      scanInlineAux fuel rest1 st2
    else if c = '&' then
      let st1 := flushSegment st
      let tok := rest.takeWhile (fun x => ¬ isTokenStop x)
      let rest1 := rest.dropWhile (fun x => ¬ isTokenStop x)
      let st2 :=
        if (trimStr tok).isEmpty then st1
        else { st1 with references := st1.references ++ [trimStr tok] }
      scanInlineAux fuel rest1 st2
    else
      scanInlineAux fuel rest { st with current_segment := st.current_segment ++ [c] }

/-- The inline-element scan of `parse_claim` over a whole claim body. -/
def scanInline (s : Str) (st : InlineState) : InlineState :=
  scanInlineAux s.length s st

/-- Handle the segment remaining at the end of the inline-element scan:
a non-blank segment becomes the claim text if the claim is still open,
and is appended to the conditions otherwise. -/
def finishInline (st : InlineState) : InlineState :=
  if (trimStr st.current_segment).isEmpty then st
  else if st.in_claim then { st with claim_text := trimStr st.current_segment }
  else { st with conditions := st.conditions ++ [trimStr st.current_segment] }

/-- The brief form operators in the order `extract_brief_forms` tries them
(longer operators first, to avoid partial matches). -/
def operatorsByLength : List Str :=
  [str "=>", str "<=", str "<>", str "><", str "//", str "vs", str "~", str "="]

/-- Strip trailing modifier glyphs from an operand
(Rust `trim_end_matches(|c| "^v!?*".contains(c))`). -/
def stripGlyphs (s : Str) : Str :=
  dropTrailingWhile (fun c => c = '^' ∨ c = 'v' ∨ c = '!' ∨ c = '?' ∨ c = '*') s

/-- The brief form usage recorded for a non-`=` operator match at
position `i`: the adjacent whitespace-delimited tokens, modifier glyphs
stripped. -/
def mkUsage (t : Str) (op : Str) (i : Nat) : BriefFormUsage :=
  { operator := op
  , left_operand := stripGlyphs (lastTokenOf (t.take i))
  , right_operand := stripGlyphs (firstTokenOf (t.drop (i + op.length))) }

/-- The character before position `i`, if any (Rust
`if i > 0 { Some(chars[i - 1]) } else { None }`). -/
def prevCharAt (t : Str) (i : Nat) : Option Char :=
  if i = 0 then none else t.get? (i - 1)

/-- The special scan for the bare `=` operator of `extract_brief_forms`:
a match is accepted where the character is not preceded by `<` or `>` and
not followed by `>`; operands are the adjacent tokens (unstripped), and a
usage is pushed only when at least one operand is non-empty. -/
def eqScan (t : Str) : List BriefFormUsage :=
  (List.range t.length).filterMap fun i =>
    if t.get? i = some '=' ∧ prevCharAt t i ≠ some '<' ∧
       prevCharAt t i ≠ some '>' ∧ t.get? (i + 1) ≠ some '>' then
      let left := lastTokenOf (t.take i)
      let right := firstTokenOf (t.drop (i + 1))
      if ¬ left.isEmpty ∨ ¬ right.isEmpty then
        some { operator := str "=", left_operand := left, right_operand := right }
      else none
    else none

/-- The usages one operator contributes in `extract_brief_forms`: `<=` is
skipped entirely when the text still holds `[<=`, the bare `=` uses the
special scan, and every other operator records one usage per leftmost
non-overlapping occurrence. -/
def opScan (t : Str) (op : Str) : List BriefFormUsage :=
  if op = str "<=" ∧ containsSub evoOpen t then []
  else if op = str "=" then eqScan t
  else (matchIndices op t).map (mkUsage t op)

/-- Rust `extract_brief_forms`: extract brief form usages from claim text. -/
def extract_brief_forms (t : Str) : List BriefFormUsage :=
  (operatorsByLength.map (opScan t)).flatten

/-- The modifier characters `extract_modifiers` scans for (the letter `v`
is handled separately). -/
def modifierChars : List Char := ['^', '!', '?', '*']

/-- Whether a token ends with one of the brief form operator symbols
(Rust `BRIEF_FORMS.iter().any(|(op, _)| prev.ends_with(op))`). -/
def endsWithOperator (tok : Str) : Bool :=
  BRIEF_FORMS.any (fun p => p.1.isSuffixOf tok)

/-- Rust `extract_modifiers`: extract modifier usages from claim text. -/
def extract_modifiers (t : Str) : List ModifierUsage :=
  let tokens := splitWhitespace t
  (tokens.enum.map (fun p =>
    let i := p.1
    let tok := p.2
    (modifierChars.filterMap fun m =>
      if [m].isSuffixOf tok ∧ tok.length > 1 then
        some { symbol := m, attached_to := dropTrailingChar m tok }
      else none) ++
    (modifierChars.filterMap fun m =>
      if tok = [m] ∧ i > 0 then
        let prev := tokens.getD (i - 1) []
        if ¬ endsWithOperator prev then
          some { symbol := m
               , attached_to :=
                   dropTrailingWhile
                     (fun c => c = '^' ∨ c = '!' ∨ c = '?' ∨ c = '*' ∨ c = 'v') prev }
        else none
      else none) ++
    (if tok = ['v'] ∧ i > 0 then
      let prev := tokens.getD (i - 1) []
      if ¬ endsWithOperator prev then
        [{ symbol := 'v'
         , attached_to :=
             dropTrailingWhile (fun c => c = '^' ∨ c = '!' ∨ c = '?' ∨ c = '*') prev }]
      else []
    else []))).flatten

/-- Rust `parse_claim`: parse claim content into structured data. -/
def parse_claim (body : Str) : ClaimData :=
  let ev := extract_evolution_marker body
  let text := ev.1
  let evolution := ev.2
  let st := finishInline (scanInline text initInline)
  { text := st.claim_text
  , conditions := st.conditions
  , sources := st.sources
  , references := st.references
  , brief_forms := extract_brief_forms st.claim_text
  , modifiers := extract_modifiers st.claim_text
  , evolution := evolution }

/-! Tokenization and validation passes of `validator/src/lib.rs`. -/

/-- Rust `tokenize_line`: classify a single raw line, returning its
`LineType` and the errors recorded for it. -/
def tokenize_line (line : Str) (line_number : Nat) :
    LineType × List ValidationError :=
  if (trimStr line).isEmpty then (.Blank, [])
  else
    let indent := countLeadingSpaces line
    let content := trimStr line
    if indent = 0 then
      if content.isEmpty then (.Blank, [.EmptyConceptName line_number])
      else (.Concept content, [])
    else if indent = 2 then
      if ¬ content.head? = some FACET_PREFIX then
        (.Blank, [.MissingFacetPrefix line_number])
      else
        let name := trimStr (content.drop 1)
        if name.isEmpty then (.Facet name, [.EmptyFacetName line_number])
        else (.Facet name, [])
    else if indent = 4 then
      if ¬ content.head? = some CLAIM_PREFIX then
        (.Blank, [.MissingClaimPrefix line_number])
      else
        let claim_text := trimStr (content.drop 1)
        (.Claim (parse_claim claim_text), [])
    else if indent = 1 ∨ indent = 3 then
      (.Blank, [.InvalidIndentation line_number (str "0, 2, or 4") indent])
    else
      (.Blank, [.UnexpectedIndentation line_number indent])

/-- The first pass of `validate`: tokenize every raw line, numbering from
`n`, collecting the parsed lines and the recorded errors in order. -/
def tokenizePass : List Str → Nat → List ParsedLine × List ValidationError
  | [], _ => ([], [])
  | raw :: rest, n =>
    let t := tokenize_line raw n
    let r := tokenizePass rest (n + 1)
    (⟨n, t.1, raw⟩ :: r.1, t.2 ++ r.2)

/-- State of the scan of `collect_valid_references`: the pairs collected so
far and the current concept. -/
def collectRefsLoop : List ParsedLine → List Str → Option Str → List Str
  | [], acc, _ => acc
  | pl :: rest, acc, currentConcept =>
    match pl.line_type with
    | .Concept name => collectRefsLoop rest acc (some name)
    | .Facet name =>
      match currentConcept with
      | some concept =>
        collectRefsLoop rest (acc ++ [concept ++ FACET_PREFIX :: name]) currentConcept
      | none => collectRefsLoop rest acc currentConcept
    | _ => collectRefsLoop rest acc currentConcept

/-- Rust `collect_valid_references`: all `Concept.facet` reference targets
declared anywhere in the document (each facet paired with the most recently
seen concept). -/
def collect_valid_references (lines : List ParsedLine) : List Str :=
  collectRefsLoop lines [] none

/-- State of the structural validation walk. -/
structure StructState where
  current_concept : Option (Nat × Str)
  current_facet : Option (Nat × Str)
  concept_has_facet : Bool
  facet_has_claim : Bool
  errs : List ValidationError
  deriving Repr

/-- The errors finalizing a pending concept emits
(`ConceptWithoutFacets` when it has no facet). -/
def finalizeConcept (st : StructState) : List ValidationError :=
  match st.current_concept with
  | some cf => if ¬ st.concept_has_facet then [.ConceptWithoutFacets cf.1 cf.2] else []
  | none => []

/-- The errors finalizing a pending facet emits
(`FacetWithoutClaims` when it has no claim). -/
def finalizeFacet (st : StructState) : List ValidationError :=
  match st.current_facet with
  | some ff => if ¬ st.facet_has_claim then [.FacetWithoutClaims ff.1 ff.2] else []
  | none => []

/-- One transition of the structural validation state machine
(the body of the loop of `validate_structure`). -/
def structStep (st : StructState) (pl : ParsedLine) : StructState :=
  match pl.line_type with
  | .Blank => st
  | .Concept name =>
    { current_concept := some (pl.line_number, name)
    , current_facet := none
    , concept_has_facet := false
    , facet_has_claim := false
    , errs := st.errs ++ finalizeConcept st ++ finalizeFacet st }
  | .Facet name =>
    { current_concept := st.current_concept
    , current_facet := some (pl.line_number, name)
    , concept_has_facet :=
        if st.current_concept.isNone then st.concept_has_facet else true
    , facet_has_claim := false
    , errs := st.errs ++
        (if st.current_concept.isNone then [.OrphanFacet pl.line_number] else []) ++
        finalizeFacet st }
  | .Claim _ =>
    if st.current_facet.isNone then
      { st with errs := st.errs ++ [.OrphanClaim pl.line_number] }
    else
      { st with facet_has_claim := true }

/-- The structural validation walk over the line sequence. -/
def structLoop : List ParsedLine → StructState → StructState
  | [], st => st
  | pl :: rest, st => structLoop rest (structStep st pl)

/-- Rust `validate_structure`: walk the classified lines and report orphan
facets and claims and childless concepts and facets, finalizing the pending
concept and facet at the end of the stream. -/
def validate_structure (lines : List ParsedLine) : List ValidationError :=
  let st := structLoop lines
    { current_concept := none, current_facet := none
    , concept_has_facet := false, facet_has_claim := false, errs := [] }
  st.errs ++ finalizeConcept st ++ finalizeFacet st

/-- Rust `validate_claim_syntax`: check one parsed claim against the
reference index, returning the errors and the warnings it appends. -/
def validate_claim_syntax (line_number : Nat) (claim : ClaimData)
    (valid_refs : List Str) : List ValidationError × List ValidationError :=
  let e1 := if claim.text.isEmpty then [.EmptyClaimText line_number] else []
  let e2 := (claim.conditions.filter (fun cond => cond.isEmpty)).map
    (fun _ => ValidationError.EmptyCondition line_number)
  let e3 := (claim.sources.filter (fun src => src.isEmpty)).map
    (fun _ => ValidationError.EmptySource line_number)
  let e4 := (claim.references.filter (fun r => r.isEmpty)).map
    (fun _ => ValidationError.EmptyReference line_number)
  let e5 := (claim.references.filter
      (fun r => ¬ r.isEmpty ∧ ¬ r.contains '.')).map
    (fun r => ValidationError.InvalidReferenceFormat line_number r)
  let e6 := (claim.references.filter
      (fun r => ¬ r.isEmpty ∧ r.contains '.' ∧ ¬ valid_refs.contains r)).map
    (fun r => ValidationError.UndefinedReference line_number r)
  let e7 := (claim.brief_forms.map (fun bf =>
    (if bf.left_operand.isEmpty then
      [ValidationError.BriefFormMissingLeftOperand line_number bf.operator] else []) ++
    (if bf.right_operand.isEmpty then
      [ValidationError.BriefFormMissingRightOperand line_number bf.operator] else []))).flatten
  let e8 := if containsSub evoOpen claim.text ∧ ¬ claim.text.contains ']' then
      [ValidationError.UnclosedEvolutionMarker line_number] else []
  let e9 := match claim.evolution with
    | some evo =>
      if evo.prior_belief.isEmpty then [ValidationError.EmptyEvolutionMarker line_number]
      else []
    | none => []
  let tokens := splitWhitespace claim.text
  let w := (tokens.enum.map (fun p =>
    let i := p.1
    let tok := p.2
    if tok = ['^'] ∨ tok = ['!'] ∨ tok = ['?'] ∨ tok = ['*'] then
      if i = 0 then [ValidationError.StandaloneModifier line_number tok]
      else if endsWithOperator (tokens.getD (i - 1) []) then
        [ValidationError.StandaloneModifier line_number tok]
      else []
    else [])).flatten
  (e1 ++ e2 ++ e3 ++ e4 ++ e5 ++ e6 ++ e7 ++ e8 ++ e9, w)

/-- The claim-syntax validation applied to one parsed line (claims only). -/
def claimPairOf (valid_refs : List Str) (pl : ParsedLine) :
    List ValidationError × List ValidationError :=
  match pl.line_type with
  | .Claim c => validate_claim_syntax pl.line_number c valid_refs
  | _ => ([], [])

/-- The classified line sequence of a document (first pass of `validate`). -/
def linesOf (input : Str) : List ParsedLine :=
  (tokenizePass (splitLines input) 1).1

/-- The tokenization errors of a document (first pass of `validate`). -/
def tokErrsOf (input : Str) : List ValidationError :=
  (tokenizePass (splitLines input) 1).2

/-- The reference index of a document. -/
def validRefsOf (input : Str) : List Str :=
  collect_valid_references (linesOf input)

/-- The claim-syntax errors of a document (third pass of `validate`). -/
def claimErrsOf (input : Str) : List ValidationError :=
  ((linesOf input).map (fun pl => (claimPairOf (validRefsOf input) pl).1)).flatten

/-- The claim-syntax warnings of a document (third pass of `validate`). -/
def claimWarnsOf (input : Str) : List ValidationError :=
  ((linesOf input).map (fun pl => (claimPairOf (validRefsOf input) pl).2)).flatten

/-- Rust `validate`: validate a Worldview document. -/
def validate (input : Str) : ValidationResult :=
  { errors := tokErrsOf input ++ validate_structure (linesOf input) ++ claimErrsOf input
  , warnings := claimWarnsOf input
  , lines := linesOf input }

/-! Byte-level model of the strings the validator slices, for the
character-boundary safety of its byte-index arithmetic. -/

/-- The UTF-8 encoding of one character, as the list of its byte values. -/
def utf8EncodeChar (c : Char) : List Nat :=
  let n := c.toNat
  if n < 0x80 then [n]
  else if n < 0x800 then [0xC0 + n / 0x40, 0x80 + n % 0x40]
  else if n < 0x10000 then
    [0xE0 + n / 0x1000, 0x80 + (n / 0x40) % 0x40, 0x80 + n % 0x40]
  else
    [0xF0 + n / 0x40000, 0x80 + (n / 0x1000) % 0x40,
     0x80 + (n / 0x40) % 0x40, 0x80 + n % 0x40]

/-- The UTF-8 byte sequence of a string: what a Rust `&str` holds, and what
its byte indices index into. -/
def utf8Bytes (s : Str) : List Nat :=
  (s.map utf8EncodeChar).flatten

/-- Byte index `i` lies on a character boundary of `s`: some prefix of the
characters of `s` occupies exactly `i` bytes. Rust slicing of a `&str` at
byte index `i` panics exactly when this fails. -/
def IsCharBoundary (s : Str) (i : Nat) : Prop :=
  ∃ n, (utf8Bytes (s.take n)).length = i

/-- Whether an error is one of the structural-walk kinds. -/
def isStructuralKind : ValidationError → Bool
  | .ConceptWithoutFacets _ _ => true
  | .FacetWithoutClaims _ _ => true
  | .OrphanFacet _ => true
  | .OrphanClaim _ => true
  | _ => false

/-- The five error kinds claimed to be unreachable: empty concept name,
malformed evolution marker, and the empty inline-element errors. -/
def bannedEmptyKind : ValidationError → Bool
  | .EmptyConceptName _ => true
  | .MalformedEvolutionMarker _ => true
  | .EmptyCondition _ => true
  | .EmptySource _ => true
  | .EmptyReference _ => true
  | _ => false

/-- Whether an error is one of the kinds the line classifier records. -/
def isTokErrKind : ValidationError → Bool
  | .MissingFacetPrefix _ => true
  | .EmptyFacetName _ => true
  | .MissingClaimPrefix _ => true
  | .InvalidIndentation _ _ _ => true
  | .UnexpectedIndentation _ _ => true
  | _ => false

/-- Invariant of the inline-element scan: every collected condition,
source and reference is non-empty. -/
def inlineInv (st : InlineState) : Prop :=
  (∀ x ∈ st.conditions, x.isEmpty = false) ∧
  (∀ x ∈ st.sources, x.isEmpty = false) ∧
  (∀ x ∈ st.references, x.isEmpty = false)

/-! Helper lemmas about the first pass. -/

theorem tokenizePass_fst_length (raws : List Str) (n : Nat) :
    (tokenizePass raws n).1.length = raws.length := by
  induction raws generalizing n with
  | nil => simp [tokenizePass]
  | cons r rest ih => simp [tokenizePass, ih]

theorem tokenizePass_getD (raws : List Str) (n i : Nat) (h : i < raws.length) :
    ((tokenizePass raws n).1.getD i default).line_number = n + i := by
  induction raws generalizing n i with
  | nil => simp at h
  | cons r rest ih =>
    cases i with
    | zero => simp [tokenizePass]
    | succ j =>
      have hj : j < rest.length := by simpa using h
      have hrec := ih (n + 1) j hj
      simp only [tokenizePass, List.getD_cons_succ]
      rw [hrec]
      omega

theorem mem_tokenizePass_fst {raws : List Str} {n : Nat} {pl : ParsedLine} :
    pl ∈ (tokenizePass raws n).1 ↔
    ∃ i, i < raws.length ∧
      pl = ⟨n + i, (tokenize_line (raws.getD i []) (n + i)).1, raws.getD i []⟩ := by
  induction raws generalizing n with
  | nil => simp [tokenizePass]
  | cons r rest ih =>
    simp only [tokenizePass, List.mem_cons, ih]
    constructor
    · rintro (h | ⟨i, hi, h⟩)
      · exact ⟨0, by simp, by simpa using h⟩
      · refine ⟨i + 1, by simpa using Nat.succ_lt_succ hi, ?_⟩
        simp only [List.getD_cons_succ]
        rw [show n + (i + 1) = n + 1 + i from by omega]
        exact h
    · rintro ⟨i, hi, h⟩
      cases i with
      | zero => left; simpa using h
      | succ j =>
        right
        refine ⟨j, by simpa using Nat.lt_of_succ_lt_succ hi, ?_⟩
        simp only [List.getD_cons_succ] at h
        rw [show n + (j + 1) = n + 1 + j from by omega] at h
        exact h

theorem mem_tokenizePass_snd {raws : List Str} {n : Nat} {e : ValidationError} :
    e ∈ (tokenizePass raws n).2 ↔
    ∃ i, i < raws.length ∧ e ∈ (tokenize_line (raws.getD i []) (n + i)).2 := by
  induction raws generalizing n with
  | nil => simp [tokenizePass]
  | cons r rest ih =>
    simp only [tokenizePass, List.mem_append, ih]
    constructor
    · rintro (h | ⟨i, hi, h⟩)
      · exact ⟨0, by simp, by simpa using h⟩
      · refine ⟨i + 1, by simpa using Nat.succ_lt_succ hi, ?_⟩
        simp only [List.getD_cons_succ]
        rw [show n + (i + 1) = n + 1 + i from by omega]
        exact h
    · rintro ⟨i, hi, h⟩
      cases i with
      | zero => left; simpa using h
      | succ j =>
        right
        refine ⟨j, by simpa using Nat.lt_of_succ_lt_succ hi, ?_⟩
        simp only [List.getD_cons_succ] at h
        rw [show n + (j + 1) = n + 1 + j from by omega] at h
        exact h

theorem linesOf_lineNumber_unique {input : Str} {pl1 pl2 : ParsedLine}
    (h1 : pl1 ∈ linesOf input) (h2 : pl2 ∈ linesOf input)
    (h : pl1.line_number = pl2.line_number) : pl1 = pl2 := by
  rcases mem_tokenizePass_fst.mp h1 with ⟨i, hi, e1⟩
  rcases mem_tokenizePass_fst.mp h2 with ⟨j, hj, e2⟩
  have a1 : pl1.line_number = 1 + i := by rw [e1]
  have a2 : pl2.line_number = 1 + j := by rw [e2]
  have hij : i = j := by omega
  subst hij
  rw [e1, e2]

/-! Helper lemmas about line classification. -/

theorem tokenize_line_facet {raw : Str} {ln : Nat} {name : Str}
    (h : (tokenize_line raw ln).1 = .Facet name) :
    countLeadingSpaces raw = 2 ∧ (trimStr raw).head? = some FACET_PREFIX := by
  unfold tokenize_line at h
  simp only [] at h
  repeat' split at h
  all_goals simp_all

theorem tokenize_line_claim {raw : Str} {ln : Nat} {c : ClaimData}
    (h : (tokenize_line raw ln).1 = .Claim c) :
    countLeadingSpaces raw = 4 ∧ (trimStr raw).head? = some CLAIM_PREFIX ∧
    c = parse_claim (trimStr ((trimStr raw).drop 1)) := by
  unfold tokenize_line at h
  simp only [] at h
  repeat' split at h
  all_goals simp_all

theorem tokenize_line_blank_err {raw : Str} {ln : Nat}
    (h1 : (trimStr raw).isEmpty = false)
    (h2 : (tokenize_line raw ln).1 = .Blank) :
    ∃ e, e ∈ (tokenize_line raw ln).2 ∧ errLine e = ln := by
  unfold tokenize_line at h2 ⊢
  simp only [] at h2 ⊢
  repeat' split at h2
  all_goals (repeat' split) <;> simp_all [errLine]

theorem tokenize_line_errs_shape {raw : Str} {ln : Nat} {e : ValidationError}
    (h : e ∈ (tokenize_line raw ln).2) :
    e = .MissingFacetPrefix ln ∨ e = .EmptyFacetName ln ∨ e = .MissingClaimPrefix ln ∨
    (∃ s f, e = .InvalidIndentation ln s f) ∨ (∃ f, e = .UnexpectedIndentation ln f) := by
  unfold tokenize_line at h
  simp only [] at h
  repeat' split at h
  all_goals simp_all

/-! Helper lemmas about the structural walk. -/

theorem finalizeConcept_shape {st : StructState} {e : ValidationError}
    (h : e ∈ finalizeConcept st) : isStructuralKind e = true := by
  unfold finalizeConcept at h
  repeat' split at h
  all_goals simp_all [isStructuralKind]

theorem finalizeFacet_shape {st : StructState} {e : ValidationError}
    (h : e ∈ finalizeFacet st) : isStructuralKind e = true := by
  unfold finalizeFacet at h
  repeat' split at h
  all_goals simp_all [isStructuralKind]

theorem structStep_shape {st : StructState} {pl : ParsedLine} {e : ValidationError}
    (h : e ∈ (structStep st pl).errs) : e ∈ st.errs ∨ isStructuralKind e = true := by
  unfold structStep at h
  repeat' split at h
  all_goals
    try simp only [List.mem_append, List.mem_singleton, List.append_nil,
      List.not_mem_nil, or_false, or_assoc] at h
  all_goals
    (try rcases h with h | h | h) <;> (try rcases h with h | h) <;>
      first
        | exact Or.inl h
        | exact Or.inr (finalizeConcept_shape h)
        | exact Or.inr (finalizeFacet_shape h)
        | exact Or.inr rfl

theorem structLoop_shape {lines : List ParsedLine} {st : StructState}
    (hst : ∀ e ∈ st.errs, isStructuralKind e = true) :
    ∀ e ∈ (structLoop lines st).errs, isStructuralKind e = true := by
  induction lines generalizing st with
  | nil => simpa [structLoop] using hst
  | cons pl rest ih =>
    intro e he
    have hnext : ∀ x ∈ (structStep st pl).errs, isStructuralKind x = true := by
      intro x hx
      rcases structStep_shape hx with h | h
      · exact hst x h
      · exact h
    exact ih hnext e he

theorem validate_structure_shape {lines : List ParsedLine} {e : ValidationError}
    (h : e ∈ validate_structure lines) : isStructuralKind e = true := by
  unfold validate_structure at h
  simp only [List.mem_append, or_assoc] at h
  rcases h with h | h | h
  · exact structLoop_shape (by simp) e h
  · exact finalizeConcept_shape h
  · exact finalizeFacet_shape h

/-! Helper lemmas about the inline-element scan. -/

theorem flushSegment_inv {st : InlineState} (h : inlineInv st) :
    inlineInv (flushSegment st) := by
  obtain ⟨h1, h2, h3⟩ := h
  unfold flushSegment
  split_ifs with hc hn
  · exact ⟨h1, h2, h3⟩
  · exact ⟨h1, h2, h3⟩
  · refine ⟨?_, h2, h3⟩
    intro x hx
    rcases List.mem_append.mp hx with hx | hx
    · exact h1 x hx
    · simp only [List.mem_singleton] at hx
      subst hx
      simpa using hn

theorem pushSource_inv {st : InlineState} {tok : Str} (h : inlineInv st)
    (hg : (trimStr tok).isEmpty = false) :
    inlineInv { st with sources := st.sources ++ [trimStr tok] } := by
  obtain ⟨h1, h2, h3⟩ := h
  refine ⟨h1, ?_, h3⟩
  intro x hx
  rcases List.mem_append.mp hx with hx | hx
  · exact h2 x hx
  · simp only [List.mem_singleton] at hx
    subst hx
    exact hg

theorem pushReference_inv {st : InlineState} {tok : Str} (h : inlineInv st)
    (hg : (trimStr tok).isEmpty = false) :
    inlineInv { st with references := st.references ++ [trimStr tok] } := by
  obtain ⟨h1, h2, h3⟩ := h
  refine ⟨h1, h2, ?_⟩
  intro x hx
  rcases List.mem_append.mp hx with hx | hx
  · exact h3 x hx
  · simp only [List.mem_singleton] at hx
    subst hx
    exact hg

theorem scanInlineAux_inv (fuel : Nat) (s : Str) (st : InlineState)
    (h : inlineInv st) : inlineInv (scanInlineAux fuel s st) := by
  induction fuel generalizing s st with
  | zero => simpa [scanInlineAux] using h
  | succ n ih =>
    cases s with
    | nil => simpa [scanInlineAux] using h
    | cons c rest =>
      unfold scanInlineAux
      simp only []
      repeat' split
      all_goals first
        | exact ih _ _ (flushSegment_inv h)
        | exact ih _ _ (pushSource_inv (flushSegment_inv h) (by simp_all))
        | exact ih _ _ (pushReference_inv (flushSegment_inv h) (by simp_all))
        | exact ih _ _ ⟨h.1, h.2.1, h.2.2⟩

theorem finishInline_inv {st : InlineState} (h : inlineInv st) :
    inlineInv (finishInline st) := by
  obtain ⟨h1, h2, h3⟩ := h
  unfold finishInline
  split_ifs with hn hc
  · exact ⟨h1, h2, h3⟩
  · exact ⟨h1, h2, h3⟩
  · refine ⟨?_, h2, h3⟩
    intro x hx
    rcases List.mem_append.mp hx with hx | hx
    · exact h1 x hx
    · simp only [List.mem_singleton] at hx
      subst hx
      simpa using hn

theorem parse_claim_inv (body : Str) :
    (∀ x ∈ (parse_claim body).conditions, x.isEmpty = false) ∧
    (∀ x ∈ (parse_claim body).sources, x.isEmpty = false) ∧
    (∀ x ∈ (parse_claim body).references, x.isEmpty = false) := by
  have h0 : inlineInv initInline := by
    refine ⟨?_, ?_, ?_⟩ <;> intro x hx <;> simp [initInline] at hx
  have h1 : inlineInv (finishInline
      (scanInline (extract_evolution_marker body).1 initInline)) :=
    finishInline_inv (scanInlineAux_inv _ _ _ h0)
  unfold parse_claim
  simp only []
  exact h1

/-! Helper lemma about the reference index. -/

theorem collectRefsLoop_dot {lines : List ParsedLine} {acc : List Str}
    {cur : Option Str} (hacc : ∀ x ∈ acc, x.contains '.' = true) :
    ∀ x ∈ collectRefsLoop lines acc cur, x.contains '.' = true := by
  induction lines generalizing acc cur with
  | nil => simpa [collectRefsLoop] using hacc
  | cons pl rest ih =>
    unfold collectRefsLoop
    cases hlt : pl.line_type with
    | Blank => exact ih hacc
    | Concept name => exact ih hacc
    | Facet name =>
      cases cur with
      | none => exact ih hacc
      | some concept =>
        refine ih ?_
        intro x hx
        rcases List.mem_append.mp hx with hx | hx
        · exact hacc x hx
        · simp only [List.mem_singleton] at hx
          subst hx
          have hmem : '.' ∈ concept ++ FACET_PREFIX :: name := by
            simp [FACET_PREFIX]
          exact List.elem_eq_true_of_mem hmem
    | Claim c => exact ih hacc

/-! Helper lemmas about the claim-syntax validator. -/

theorem mem_ite_singleton {α : Type} {x y : α} {b : Prop} [Decidable b] :
    (x ∈ (if b then [y] else [])) ↔ (b ∧ x = y) := by
  split_ifs <;> simp_all

theorem vcs_mem_unclosed {ln m : Nat} {c : ClaimData} {refs : List Str} :
    (ValidationError.UnclosedEvolutionMarker m) ∈ ( validate_claim_syntax ln c refs).1 ↔
    (m = ln ∧ containsSub evoOpen c.text = true ∧ ']' ∉ c.text) := by
  unfold validate_claim_syntax
  simp only []
  cases hevo : c.evolution <;>
    simp [List.mem_append, mem_ite_singleton, List.mem_map, List.mem_filter,
      List.mem_flatten] <;>
    tauto

theorem vcs_mem_invalidRef {ln m : Nat} {c : ClaimData} {refs : List Str} {r : Str} :
    (ValidationError.InvalidReferenceFormat m r) ∈ ( validate_claim_syntax ln c refs).1 ↔
    (m = ln ∧ r ∈ c.references ∧ r ≠ [] ∧ '.' ∉ r) := by
  unfold validate_claim_syntax
  simp only []
  cases hevo : c.evolution <;>
    simp [List.mem_append, mem_ite_singleton, List.mem_map, List.mem_filter,
      List.mem_flatten] <;>
    aesop

theorem vcs_mem_undefRef {ln m : Nat} {c : ClaimData} {refs : List Str} {r : Str} :
    (ValidationError.UndefinedReference m r) ∈ ( validate_claim_syntax ln c refs).1 ↔
    (m = ln ∧ r ∈ c.references ∧ r ≠ [] ∧ '.' ∈ r ∧ r ∉ refs) := by
  unfold validate_claim_syntax
  simp only []
  cases hevo : c.evolution <;>
    simp [List.mem_append, mem_ite_singleton, List.mem_map, List.mem_filter,
      List.mem_flatten] <;>
    aesop

theorem vcs_mem_emptyCondition {ln m : Nat} {c : ClaimData} {refs : List Str} :
    (ValidationError.EmptyCondition m) ∈ ( validate_claim_syntax ln c refs).1 ↔
    (m = ln ∧ [] ∈ c.conditions) := by
  unfold validate_claim_syntax
  simp only []
  cases hevo : c.evolution <;>
    simp [List.mem_append, mem_ite_singleton, List.mem_map, List.mem_filter,
      List.mem_flatten] <;>
    tauto

theorem vcs_mem_emptySource {ln m : Nat} {c : ClaimData} {refs : List Str} :
    (ValidationError.EmptySource m) ∈ ( validate_claim_syntax ln c refs).1 ↔
    (m = ln ∧ [] ∈ c.sources) := by
  unfold validate_claim_syntax
  simp only []
  cases hevo : c.evolution <;>
    simp [List.mem_append, mem_ite_singleton, List.mem_map, List.mem_filter,
      List.mem_flatten] <;>
    tauto

theorem vcs_mem_emptyReference {ln m : Nat} {c : ClaimData} {refs : List Str} :
    (ValidationError.EmptyReference m) ∈ ( validate_claim_syntax ln c refs).1 ↔
    (m = ln ∧ [] ∈ c.references) := by
  unfold validate_claim_syntax
  simp only []
  cases hevo : c.evolution <;>
    simp [List.mem_append, mem_ite_singleton, List.mem_map, List.mem_filter,
      List.mem_flatten] <;>
    tauto

theorem vcs_not_mem_emptyConceptName {ln m : Nat} {c : ClaimData} {refs : List Str} :
    (ValidationError.EmptyConceptName m) ∉ ( validate_claim_syntax ln c refs).1 := by
  unfold validate_claim_syntax
  simp only []
  cases hevo : c.evolution <;>
    simp [List.mem_append, mem_ite_singleton, List.mem_map, List.mem_filter,
      List.mem_flatten]

theorem vcs_not_mem_malformed {ln m : Nat} {c : ClaimData} {refs : List Str} :
    (ValidationError.MalformedEvolutionMarker m) ∉ ( validate_claim_syntax ln c refs).1 := by
  unfold validate_claim_syntax
  simp only []
  cases hevo : c.evolution <;>
    simp [List.mem_append, mem_ite_singleton, List.mem_map, List.mem_filter,
      List.mem_flatten]

theorem vcs_not_mem_standalone {ln m : Nat} {t : Str} {c : ClaimData} {refs : List Str} :
    (ValidationError.StandaloneModifier m t) ∉ ( validate_claim_syntax ln c refs).1 := by
  unfold validate_claim_syntax
  simp only []
  cases hevo : c.evolution <;>
    simp [List.mem_append, mem_ite_singleton, List.mem_map, List.mem_filter,
      List.mem_flatten]

theorem vcs_not_banned {ln : Nat} {c : ClaimData} {refs : List Str}
    (h1 : ∀ x ∈ c.conditions, x.isEmpty = false)
    (h2 : ∀ x ∈ c.sources, x.isEmpty = false)
    (h3 : ∀ x ∈ c.references, x.isEmpty = false) :
    ∀ e ∈ ( validate_claim_syntax ln c refs).1, bannedEmptyKind e = false := by
  intro e he
  cases e <;> simp [bannedEmptyKind]
  case EmptyConceptName m => exact absurd he vcs_not_mem_emptyConceptName
  case MalformedEvolutionMarker m => exact absurd he vcs_not_mem_malformed
  case EmptyCondition m =>
    have := (vcs_mem_emptyCondition.mp he).2
    simpa using h1 [] this
  case EmptySource m =>
    have := (vcs_mem_emptySource.mp he).2
    simpa using h2 [] this
  case EmptyReference m =>
    have := (vcs_mem_emptyReference.mp he).2
    simpa using h3 [] this

theorem vcs_not_warning {ln : Nat} {c : ClaimData} {refs : List Str} :
    ∀ e ∈ ( validate_claim_syntax ln c refs).1, e.is_warning = false := by
  intro e he
  cases e <;> simp [ValidationError.is_warning]
  case StandaloneModifier m t => exact absurd he vcs_not_mem_standalone

theorem vcs_warns_shape {ln : Nat} {c : ClaimData} {refs : List Str} :
    ∀ w ∈ ( validate_claim_syntax ln c refs).2,
      ∃ tok, w = ValidationError.StandaloneModifier ln tok := by
  intro w hw
  unfold validate_claim_syntax at hw
  simp only [] at hw
  simp only [List.mem_flatten, List.mem_map] at hw
  obtain ⟨l, ⟨p, hp, hl⟩, hwl⟩ := hw
  subst hl
  split_ifs at hwl <;> simp_all

/-! Decomposition of the errors and warnings of `validate`. -/

theorem mem_claimErrsOf {input : Str} {e : ValidationError} :
    e ∈ claimErrsOf input ↔
    ∃ pl ∈ linesOf input, ∃ c, pl.line_type = .Claim c ∧
      e ∈ ( validate_claim_syntax pl.line_number c (validRefsOf input)).1 := by
  unfold claimErrsOf
  simp only [List.mem_flatten, List.mem_map]
  constructor
  · rintro ⟨l, ⟨pl, hpl, hl⟩, hel⟩
    subst hl
    unfold claimPairOf at hel
    rcases hlt : pl.line_type with _ | name | name | c <;> rw [hlt] at hel <;>
      simp at hel
    exact ⟨pl, hpl, c, hlt, hel⟩
  · rintro ⟨pl, hpl, c, hlt, hel⟩
    refine ⟨(claimPairOf (validRefsOf input) pl).1, ⟨pl, hpl, rfl⟩, ?_⟩
    unfold claimPairOf
    rw [hlt]
    exact hel

theorem mem_claimWarnsOf {input : Str} {w : ValidationError} :
    w ∈ claimWarnsOf input ↔
    ∃ pl ∈ linesOf input, ∃ c, pl.line_type = .Claim c ∧
      w ∈ ( validate_claim_syntax pl.line_number c (validRefsOf input)).2 := by
  unfold claimWarnsOf
  simp only [List.mem_flatten, List.mem_map]
  constructor
  · rintro ⟨l, ⟨pl, hpl, hl⟩, hel⟩
    subst hl
    unfold claimPairOf at hel
    rcases hlt : pl.line_type with _ | name | name | c <;> rw [hlt] at hel <;>
      simp at hel
    exact ⟨pl, hpl, c, hlt, hel⟩
  · rintro ⟨pl, hpl, c, hlt, hel⟩
    refine ⟨(claimPairOf (validRefsOf input) pl).2, ⟨pl, hpl, rfl⟩, ?_⟩
    unfold claimPairOf
    rw [hlt]
    exact hel

theorem mem_validate_errors {input : Str} {e : ValidationError} :
    e ∈ (validate input).errors ↔
    (e ∈ tokErrsOf input ∨ e ∈ validate_structure (linesOf input) ∨
      e ∈ claimErrsOf input) := by
  unfold validate
  simp [List.mem_append, or_assoc]

/-! Helper lemmas about brief form extraction. -/

theorem matchIndicesAux_mem {pat l : Str} {fuel i j : Nat}
    (h : j ∈ matchIndicesAux pat l fuel i) : isPrefixAt pat l j = true := by
  induction fuel generalizing i with
  | zero => simp [matchIndicesAux] at h
  | succ n ih =>
    unfold matchIndicesAux at h
    split_ifs at h with h1 h2
    · rcases List.mem_cons.mp h with h | h
      · subst h
        exact h2
      · exact ih h
    · exact ih h
    · simp at h

theorem matchIndices_mem {pat l : Str} {j : Nat}
    (h : j ∈ matchIndices pat l) : isPrefixAt pat l j = true :=
  matchIndicesAux_mem h

theorem eqScan_operator {t : Str} {u : BriefFormUsage} (h : u ∈ eqScan t) :
    u.operator = str "=" := by
  unfold eqScan at h
  simp only [List.mem_filterMap, List.mem_range] at h
  obtain ⟨i, _, hu⟩ := h
  split at hu
  · split at hu
    · simp only [Option.some.injEq] at hu
      rw [← hu]
    · simp at hu
  · simp at hu

theorem opScan_operator {t op : Str} {u : BriefFormUsage} (h : u ∈ opScan t op) :
    u.operator = op := by
  unfold opScan at h
  split at h
  · simp at h
  · split at h
    · rename_i h2
      rw [eqScan_operator h, h2]
    · simp only [List.mem_map] at h
      obtain ⟨i, _, hu⟩ := h
      rw [← hu]
      simp [mkUsage]

theorem extract_brief_forms_eq_append (t : Str) :
    extract_brief_forms t =
      opScan t (str "=>") ++ opScan t (str "<=") ++ opScan t (str "<>") ++
      opScan t (str "><") ++ opScan t (str "//") ++ opScan t (str "vs") ++
      opScan t (str "~") ++ opScan t (str "=") := by
  unfold extract_brief_forms operatorsByLength
  simp [List.append_assoc]

theorem mem_extract_brief_forms {t : Str} {u : BriefFormUsage}
    (h : u ∈ extract_brief_forms t) : ∃ op ∈ operatorsByLength, u ∈ opScan t op := by
  unfold extract_brief_forms at h
  simp only [List.mem_flatten, List.mem_map] at h
  obtain ⟨l, ⟨op, hop, hl⟩, hul⟩ := h
  subst hl
  exact ⟨op, hop, hul⟩

theorem eqScan_mem_shape {t : Str} {u : BriefFormUsage} (h : u ∈ eqScan t) :
    ∃ i, t.get? i = some '=' ∧
      u.left_operand = lastTokenOf (t.take i) ∧
      u.right_operand = firstTokenOf (t.drop (i + 1)) ∧
      (u.left_operand.isEmpty = false ∨ u.right_operand.isEmpty = false) := by
  unfold eqScan at h
  simp only [List.mem_filterMap, List.mem_range] at h
  obtain ⟨i, _, hu⟩ := h
  split at hu
  · split at hu
    · rename_i h1 h2
      simp only [Option.some.injEq] at hu
      refine ⟨i, h1.1, ?_, ?_, ?_⟩
      · rw [← hu]
      · rw [← hu]
      · rw [← hu]
        simpa [List.isEmpty_iff] using h2
    · simp at hu
  · simp at hu

theorem opScan_mem_shape {t op : Str} {u : BriefFormUsage}
    (hop : op ≠ str "=") (h : u ∈ opScan t op) :
    ¬ (op = str "<=" ∧ containsSub evoOpen t = true) ∧
    ∃ i, isPrefixAt op t i = true ∧
      u.left_operand = stripGlyphs (lastTokenOf (t.take i)) ∧
      u.right_operand = stripGlyphs (firstTokenOf (t.drop (i + op.length))) := by
  by_cases hskip : op = str "<=" ∧ containsSub evoOpen t = true
  · simp only [opScan] at h
    rw [if_pos hskip] at h
    simp at h
  · simp only [opScan] at h
    rw [if_neg hskip, if_neg hop] at h
    refine ⟨hskip, ?_⟩
    simp only [List.mem_map] at h
    obtain ⟨i, hi, hu⟩ := h
    refine ⟨i, matchIndices_mem hi, ?_, ?_⟩
    · rw [← hu]
      simp [mkUsage]
    · rw [← hu]
      simp [mkUsage]

theorem opScan_complete {t op : Str} {i : Nat}
    (hop1 : op ≠ str "=") (hop2 : ¬ (op = str "<=" ∧ containsSub evoOpen t = true))
    (hi : i ∈ matchIndices op t) : mkUsage t op i ∈ opScan t op := by
  simp only [opScan]
  rw [if_neg hop2, if_neg hop1]
  exact List.mem_map_of_mem _ hi

/-! Helper lemmas about UTF-8 byte boundaries. -/

theorem utf8Bytes_cons (c : Char) (s : Str) :
    utf8Bytes (c :: s) = utf8EncodeChar c ++ utf8Bytes s := by
  simp [utf8Bytes]

theorem utf8EncodeChar_ascii {c : Char} (h : c.toNat < 0x80) :
    utf8EncodeChar c = [c.toNat] := by
  unfold utf8EncodeChar
  simp only []
  rw [if_pos h]

theorem utf8EncodeChar_multibyte_ge {c : Char} {b : Nat}
    (h : ¬ c.toNat < 0x80) (hb : b ∈ utf8EncodeChar c) : 0x80 ≤ b := by
  unfold utf8EncodeChar at hb
  simp only [] at hb
  split_ifs at hb <;> simp_all <;> omega

theorem isCharBoundary_zero (s : Str) : IsCharBoundary s 0 :=
  ⟨0, by simp [utf8Bytes]⟩

theorem isCharBoundary_cons {c : Char} {rest : Str} {j : Nat}
    (h : IsCharBoundary rest j) :
    IsCharBoundary (c :: rest) ((utf8EncodeChar c).length + j) := by
  obtain ⟨n, hn⟩ := h
  exact ⟨n + 1, by simp [List.take_succ_cons, utf8Bytes_cons, hn]⟩

theorem utf8Bytes_ascii_boundary {s : Str} {i b : Nat}
    (hb : (utf8Bytes s).get? i = some b) (hascii : b < 0x80) :
    IsCharBoundary s i ∧ IsCharBoundary s (i + 1) := by
  induction s generalizing i with
  | nil => simp [utf8Bytes] at hb
  | cons c rest ih =>
    rw [utf8Bytes_cons] at hb
    by_cases hlt : i < (utf8EncodeChar c).length
    · rw [List.get?_append hlt] at hb
      have hmem : b ∈ utf8EncodeChar c := List.get?_mem hb
      by_cases hc : c.toNat < 0x80
      · have henc := utf8EncodeChar_ascii hc
        rw [henc] at hlt hb
        have hi0 : i = 0 := by simpa using hlt
        subst hi0
        constructor
        · exact isCharBoundary_zero _
        · have : IsCharBoundary (c :: rest) ((utf8EncodeChar c).length + 0) :=
            isCharBoundary_cons (isCharBoundary_zero rest)
          simpa [henc] using this
      · exact absurd hascii (by simpa using utf8EncodeChar_multibyte_ge hc hmem)
    · push_neg at hlt
      have hb' : (utf8Bytes rest).get? (i - (utf8EncodeChar c).length) = some b := by
        rw [← List.get?_append_right hlt]
        exact hb
      obtain ⟨hb1, hb2⟩ := ih hb'
      constructor
      · have := isCharBoundary_cons (c := c) hb1
        rwa [Nat.add_sub_cancel' hlt] at this
      · have := isCharBoundary_cons (c := c) hb2
        have harith : (utf8EncodeChar c).length + (i - (utf8EncodeChar c).length + 1)
            = i + 1 := by omega
        rwa [harith] at this

theorem firstMatchAux_isPrefix {α : Type} [BEq α] {pat l : List α}
    {fuel i j : Nat} (h : firstMatchAux pat l fuel i = some j) :
    isPrefixAt pat l j = true := by
  induction fuel generalizing i with
  | zero => simp [firstMatchAux] at h
  | succ n ih =>
    unfold firstMatchAux at h
    split_ifs at h with h1 h2
    · cases h
      exact h1
    · exact ih h

theorem firstMatch_isPrefix {α : Type} [BEq α] {pat l : List α} {j : Nat}
    (h : firstMatch pat l = some j) : isPrefixAt pat l j = true :=
  firstMatchAux_isPrefix h

theorem isPrefixAt_get? {α : Type} [BEq α] [LawfulBEq α] {pat l : List α}
    {i k : Nat} (h : isPrefixAt pat l i = true) (hk : k < pat.length) :
    l.get? (i + k) = pat.get? k := by
  unfold isPrefixAt at h
  rw [List.isPrefixOf_iff_prefix] at h
  obtain ⟨t, ht⟩ := h
  have : (l.drop i).get? k = pat.get? k := by
    rw [← ht]
    rw [List.get?_append (by omega)]
  rw [← this, List.get?_drop]

/-! The claims. -/

/-- C1 counterexample: for the claim body `a @b c`, the source `b` has been
collected when the scan ends, yet the non-blank trailing free text `c` is
still appended to `conditions` — the claim says it must be discarded. -/
theorem claim_C1_counterexample :
    parse_claim (str "a @b c") =
      { text := str "a", conditions := [str "c"], sources := [str "b"]
      , references := [], brief_forms := [], modifiers := [], evolution := none } := by
  decide

/-- C1 amended: at the end of the inline-element scan, when the claim-text
segment has closed and the remaining accumulated free text is non-blank, it
is appended to `conditions` unconditionally — whether or not a source or a
reference has been collected in the claim. -/
theorem claim_C1_amended (body : Str)
    (h1 : (scanInline (extract_evolution_marker body).1 initInline).in_claim = false)
    (h2 : (trimStr (scanInline (extract_evolution_marker body).1
      initInline).current_segment).isEmpty = false) :
    (parse_claim body).conditions =
      (scanInline (extract_evolution_marker body).1 initInline).conditions ++
      [trimStr (scanInline (extract_evolution_marker body).1
        initInline).current_segment] := by
  unfold parse_claim
  simp only []
  unfold finishInline
  rw [if_neg (by simp [h2]), if_neg (by simp [h1])]

/-- C1 witness: the amended rule applied to the body `a @b c`. -/
theorem claim_C1_witness :
    (parse_claim (str "a @b c")).conditions =
      (scanInline (extract_evolution_marker (str "a @b c")).1 initInline).conditions ++
      [trimStr (scanInline (extract_evolution_marker (str "a @b c")).1
        initInline).current_segment] :=
  claim_C1_amended (str "a @b c") (by decide) (by decide)

/-- C5: for every input text, `validate` terminates and returns a result with
exactly one `ParsedLine` per input line — the length of `lines` equals the
number of input lines (as split by Rust `str::lines`), and the line at
position `i` carries the 1-based line number `i + 1`. -/
theorem claim_C5 (input : Str) :
    (validate input).lines.length = (splitLines input).length ∧
    ∀ i, i < (validate input).lines.length →
      ((validate input).lines.getD i default).line_number = i + 1 := by
  have h0 : (validate input).lines = (tokenizePass (splitLines input) 1).1 := rfl
  constructor
  · rw [h0]
    exact tokenizePass_fst_length _ _
  · intro i hi
    rw [h0] at hi ⊢
    rw [tokenizePass_fst_length] at hi
    rw [tokenizePass_getD (splitLines input) 1 i hi]
    omega

/-- C5 witness: the length and numbering at a concrete two-line document. -/
theorem claim_C5_witness :
    (validate (str "Power\n  .core")).lines.length =
      (splitLines (str "Power\n  .core")).length ∧
    ((validate (str "Power\n  .core")).lines.getD 1 default).line_number = 2 :=
  ⟨(claim_C5 (str "Power\n  .core")).1,
   (claim_C5 (str "Power\n  .core")).2 1 (by decide)⟩

/-! Bridging lemmas used by several claims. -/

theorem contains_eq_false_iff {α : Type} [BEq α] [LawfulBEq α] {l : List α} {a : α} :
    l.contains a = false ↔ a ∉ l := by
  constructor
  · intro h hmem
    have h2 : l.contains a = true := List.elem_eq_true_of_mem hmem
    rw [h] at h2
    simp at h2
  · intro h
    cases hc : l.contains a
    · rfl
    · exact absurd (List.mem_of_elem_eq_true hc) h

theorem tokenize_line_errs_kind {raw : Str} {ln : Nat} {e : ValidationError}
    (h : e ∈ (tokenize_line raw ln).2) : isTokErrKind e = true := by
  rcases tokenize_line_errs_shape h with h | h | h | ⟨s, f, h⟩ | ⟨f, h⟩ <;> subst h <;> rfl

theorem structural_not_warning {e : ValidationError} (h : isStructuralKind e = true) :
    e.is_warning = false := by
  cases e <;> simp_all [isStructuralKind, ValidationError.is_warning]

theorem structural_not_banned {e : ValidationError} (h : isStructuralKind e = true) :
    bannedEmptyKind e = false := by
  cases e <;> simp_all [isStructuralKind, bannedEmptyKind]

theorem tokKind_not_warning {e : ValidationError} (h : isTokErrKind e = true) :
    e.is_warning = false := by
  cases e <;> simp_all [isTokErrKind, ValidationError.is_warning]

theorem tokKind_not_banned {e : ValidationError} (h : isTokErrKind e = true) :
    bannedEmptyKind e = false := by
  cases e <;> simp_all [isTokErrKind, bannedEmptyKind]

theorem linesOf_claim_parse {input : Str} {pl : ParsedLine} {c : ClaimData}
    (hpl : pl ∈ linesOf input) (hlt : pl.line_type = .Claim c) :
    ∃ body, c = parse_claim body := by
  rcases mem_tokenizePass_fst.mp hpl with ⟨i, hi, he⟩
  subst he
  simp only [] at hlt
  exact ⟨_, (tokenize_line_claim hlt).2.2⟩

/-- C8: `validate` never emits `EmptyConceptName`, `MalformedEvolutionMarker`,
`EmptyCondition`, `EmptySource` or `EmptyReference`: the blank-line check makes
empty concept content unreachable, `MalformedEvolutionMarker` is never
constructed, and the claim parser only collects non-blank conditions, sources
and references, so the empty-entry branches of the claim-syntax validator
never fire. -/
theorem claim_C8 (input : Str) :
    (validate input).errors.all (fun e => !(bannedEmptyKind e)) = true := by
  rw [List.all_eq_true]
  intro e he
  simp only [Bool.not_eq_true']
  rw [mem_validate_errors] at he
  rcases he with he | he | he
  · rcases mem_tokenizePass_snd.mp he with ⟨i, hi, hmem⟩
    exact tokKind_not_banned (tokenize_line_errs_kind hmem)
  · exact structural_not_banned (validate_structure_shape he)
  · rcases mem_claimErrsOf.mp he with ⟨pl, hpl, c, hlt, hmem⟩
    obtain ⟨body, hc⟩ := linesOf_claim_parse hpl hlt
    subst hc
    obtain ⟨h1, h2, h3⟩ := parse_claim_inv body
    exact vcs_not_banned h1 h2 h3 e hmem

/-- C9: every warning of `validate` is a `StandaloneModifier` (the only
variant `is_warning` accepts) and no error is one, so `is_valid` depends only
on hard errors; the concrete document `- ^ something` is valid while carrying
a warning. -/
theorem claim_C9 :
    (∀ input : Str,
      (validate input).warnings.all (fun w => w.is_warning) = true ∧
      (validate input).errors.all (fun e => !(e.is_warning)) = true) ∧
    (validate (str "Power\n  .core\n    - ^ something")).is_valid = true ∧
    (validate (str "Power\n  .core\n    - ^ something")).has_warnings = true := by
  refine ⟨?_, by decide, by decide⟩
  intro input
  constructor
  · rw [List.all_eq_true]
    intro w hw
    rcases mem_claimWarnsOf.mp hw with ⟨pl, hpl, c, hlt, hmem⟩
    obtain ⟨tok, htok⟩ := vcs_warns_shape w hmem
    subst htok
    rfl
  · rw [List.all_eq_true]
    intro e he
    simp only [Bool.not_eq_true']
    rw [mem_validate_errors] at he
    rcases he with he | he | he
    · rcases mem_tokenizePass_snd.mp he with ⟨i, hi, hmem⟩
      exact tokKind_not_warning (tokenize_line_errs_kind hmem)
    · exact structural_not_warning (validate_structure_shape he)
    · rcases mem_claimErrsOf.mp he with ⟨pl, hpl, c, hlt, hmem⟩
      exact vcs_not_warning e hmem

/-- C7: a `Facet` line always has exactly 2 leading spaces and a trimmed
content starting with `.`; a `Claim` line always has exactly 4 leading spaces
and a trimmed content starting with `-`; and every non-blank line classified
`Blank` has at least one error recorded at its line number, so a malformed
line never contributes structurally. -/
theorem claim_C7 (input : Str) (pl : ParsedLine)
    (hpl : pl ∈ (validate input).lines) :
    (∀ name, pl.line_type = .Facet name →
      countLeadingSpaces pl.raw = 2 ∧ (trimStr pl.raw).head? = some FACET_PREFIX) ∧
    (∀ c, pl.line_type = .Claim c →
      countLeadingSpaces pl.raw = 4 ∧ (trimStr pl.raw).head? = some CLAIM_PREFIX) ∧
    ((trimStr pl.raw).isEmpty = false → pl.line_type = .Blank →
      ∃ e ∈ (validate input).errors, errLine e = pl.line_number) := by
  rcases mem_tokenizePass_fst.mp hpl with ⟨i, hi, he⟩
  subst he
  simp only []
  refine ⟨?_, ?_, ?_⟩
  · intro name h
    exact tokenize_line_facet h
  · intro c h
    exact ⟨(tokenize_line_claim h).1, (tokenize_line_claim h).2.1⟩
  · intro hnb hblank
    obtain ⟨e, hmem, hline⟩ := tokenize_line_blank_err hnb hblank
    refine ⟨e, ?_, hline⟩
    rw [mem_validate_errors]
    left
    exact mem_tokenizePass_snd.mpr ⟨i, hi, hmem⟩

/-- C7 witness: the shape facts at a concrete document with a facet line, a
claim line and a malformed 3-space line. -/
theorem claim_C7_witness :
    (countLeadingSpaces (str "  .core") = 2 ∧
      (trimStr (str "  .core")).head? = some FACET_PREFIX) ∧
    (countLeadingSpaces (str "    - x") = 4 ∧
      (trimStr (str "    - x")).head? = some CLAIM_PREFIX) ∧
    (∃ e ∈ (validate (str "Power\n  .core\n    - x\n   bad")).errors,
      errLine e = 4) :=
  ⟨(claim_C7 (str "Power\n  .core\n    - x\n   bad")
      ⟨2, .Facet (str "core"), str "  .core"⟩ (by decide)).1 (str "core") rfl,
   (claim_C7 (str "Power\n  .core\n    - x\n   bad")
      ⟨3, .Claim (parse_claim (str "x")), str "    - x"⟩ (by decide)).2.1
      (parse_claim (str "x")) rfl,
   (claim_C7 (str "Power\n  .core\n    - x\n   bad")
      ⟨4, .Blank, str "   bad"⟩ (by decide)).2.2 (by decide) rfl⟩

/-- C2 counterexample: the original (trimmed, prefix-stripped) body of line 3
is `a | [<= b`; it contains `[<=` (at position 4) with no `]` after it, yet
`validate` emits no error at all — in particular no `UnclosedEvolutionMarker`
— because the `|` moves the marker into a condition before the check runs. -/
theorem claim_C2_counterexample :
    trimStr ((trimStr (str "    - a | [<= b")).drop 1) = str "a | [<= b" ∧
    firstMatch evoOpen (str "a | [<= b") = some 4 ∧
    (']' ∉ (str "a | [<= b").drop 4) ∧
    (validate (str "Power\n  .core\n    - a | [<= b")).errors = [] := by
  decide

/-- C2 amended: `validate` emits `UnclosedEvolutionMarker` for a `Claim` line
exactly when the finalized claim text — the `text` field of the parsed
`ClaimData`, after evolution extraction and inline-element parsing — contains
the literal `[<=` and contains no `]` anywhere. -/
theorem claim_C2_amended (input : Str) (pl : ParsedLine) (c : ClaimData)
    (hpl : pl ∈ (validate input).lines) (hlt : pl.line_type = .Claim c) :
    ValidationError.UnclosedEvolutionMarker pl.line_number ∈ (validate input).errors ↔
      (containsSub evoOpen c.text = true ∧ c.text.contains ']' = false) := by
  constructor
  · intro h
    rw [mem_validate_errors] at h
    rcases h with h | h | h
    · rcases mem_tokenizePass_snd.mp h with ⟨i, hi, hmem⟩
      have := tokenize_line_errs_kind hmem
      simp [isTokErrKind] at this
    · have := validate_structure_shape h
      simp [isStructuralKind] at this
    · rcases mem_claimErrsOf.mp h with ⟨pl2, hpl2, c2, hlt2, hmem⟩
      obtain ⟨hline, hcond1, hcond2⟩ := vcs_mem_unclosed.mp hmem
      have hpleq : pl = pl2 := linesOf_lineNumber_unique hpl hpl2 hline
      subst hpleq
      rw [hlt] at hlt2
      injection hlt2 with hceq
      subst hceq
      exact ⟨hcond1, contains_eq_false_iff.mpr hcond2⟩
  · rintro ⟨h1, h2⟩
    rw [mem_validate_errors]
    right; right
    rw [mem_claimErrsOf]
    exact ⟨pl, hpl, c, hlt,
      vcs_mem_unclosed.mpr ⟨rfl, h1, contains_eq_false_iff.mp h2⟩⟩

/-- C2 witness: the amended rule fires on a genuinely unclosed marker. -/
theorem claim_C2_witness :
    ValidationError.UnclosedEvolutionMarker 3 ∈
      (validate (str "Power\n  .core\n    - a [<= b")).errors :=
  (claim_C2_amended (str "Power\n  .core\n    - a [<= b")
    ⟨3, .Claim (parse_claim (str "a [<= b")), str "    - a [<= b"⟩
    (parse_claim (str "a [<= b")) (by decide) rfl).mpr ⟨by decide, by decide⟩

/-- C6: a collected reference without a dot is reported as
`InvalidReferenceFormat`, one with a dot that names no declared
`Concept.facet` pair is reported as `UndefinedReference`, and one naming a
pair declared anywhere in the document — later lines included — triggers
neither error. -/
theorem claim_C6 (input : Str) (pl : ParsedLine) (c : ClaimData) (r : Str)
    (hpl : pl ∈ (validate input).lines) (hlt : pl.line_type = .Claim c)
    (hr : r ∈ c.references) :
    (r.contains '.' = false →
      ValidationError.InvalidReferenceFormat pl.line_number r ∈
        (validate input).errors) ∧
    (r.contains '.' = true →
      r ∉ collect_valid_references (validate input).lines →
      ValidationError.UndefinedReference pl.line_number r ∈
        (validate input).errors) ∧
    (r ∈ collect_valid_references (validate input).lines →
      ValidationError.InvalidReferenceFormat pl.line_number r ∉
        (validate input).errors ∧
      ValidationError.UndefinedReference pl.line_number r ∉
        (validate input).errors) := by
  have hrne : r ≠ [] := by
    obtain ⟨body, hc⟩ := linesOf_claim_parse hpl hlt
    subst hc
    have := (parse_claim_inv body).2.2 r hr
    simpa [List.isEmpty_iff] using this
  refine ⟨?_, ?_, ?_⟩
  · intro hdot
    rw [mem_validate_errors]
    right; right
    rw [mem_claimErrsOf]
    exact ⟨pl, hpl, c, hlt,
      vcs_mem_invalidRef.mpr ⟨rfl, hr, hrne, contains_eq_false_iff.mp hdot⟩⟩
  · intro hdot hnmem
    rw [mem_validate_errors]
    right; right
    rw [mem_claimErrsOf]
    exact ⟨pl, hpl, c, hlt,
      vcs_mem_undefRef.mpr ⟨rfl, hr, hrne, List.mem_of_elem_eq_true hdot, hnmem⟩⟩
  · intro hin
    have hdotmem : '.' ∈ r := by
      have hdot : r.contains '.' = true := by
        refine collectRefsLoop_dot ?_ r hin
        simp
      exact List.mem_of_elem_eq_true hdot
    constructor
    · intro habs
      rw [mem_validate_errors] at habs
      rcases habs with h | h | h
      · rcases mem_tokenizePass_snd.mp h with ⟨i, hi, hmem⟩
        have := tokenize_line_errs_kind hmem
        simp [isTokErrKind] at this
      · have := validate_structure_shape h
        simp [isStructuralKind] at this
      · rcases mem_claimErrsOf.mp h with ⟨pl2, hpl2, c2, hlt2, hmem⟩
        obtain ⟨-, -, -, hnodot⟩ := vcs_mem_invalidRef.mp hmem
        exact hnodot hdotmem
    · intro habs
      rw [mem_validate_errors] at habs
      rcases habs with h | h | h
      · rcases mem_tokenizePass_snd.mp h with ⟨i, hi, hmem⟩
        have := tokenize_line_errs_kind hmem
        simp [isTokErrKind] at this
      · have := validate_structure_shape h
        simp [isStructuralKind] at this
      · rcases mem_claimErrsOf.mp h with ⟨pl2, hpl2, c2, hlt2, hmem⟩
        obtain ⟨-, -, -, -, hnin⟩ := vcs_mem_undefRef.mp hmem
        exact hnin hin

/-- C6 witness: on a document whose claim holds three references — a valid
forward reference `Trust.a` (declared only later), the dotless `NoDot` and
the undeclared `B.c` — the two errors appear and the forward reference
triggers neither. -/
theorem claim_C6_witness :
    (ValidationError.InvalidReferenceFormat 3 (str "NoDot") ∈
      (validate (str "Power\n  .core\n    - x &Trust.a &NoDot &B.c\n\nTrust\n  .a\n    - y")).errors) ∧
    (ValidationError.UndefinedReference 3 (str "B.c") ∈
      (validate (str "Power\n  .core\n    - x &Trust.a &NoDot &B.c\n\nTrust\n  .a\n    - y")).errors) ∧
    (ValidationError.InvalidReferenceFormat 3 (str "Trust.a") ∉
      (validate (str "Power\n  .core\n    - x &Trust.a &NoDot &B.c\n\nTrust\n  .a\n    - y")).errors ∧
     ValidationError.UndefinedReference 3 (str "Trust.a") ∉
      (validate (str "Power\n  .core\n    - x &Trust.a &NoDot &B.c\n\nTrust\n  .a\n    - y")).errors) :=
  ⟨(claim_C6 (str "Power\n  .core\n    - x &Trust.a &NoDot &B.c\n\nTrust\n  .a\n    - y")
      ⟨3, .Claim (parse_claim (str "x &Trust.a &NoDot &B.c")),
        str "    - x &Trust.a &NoDot &B.c"⟩
      (parse_claim (str "x &Trust.a &NoDot &B.c")) (str "NoDot")
      (by decide) rfl (by decide)).1 (by decide),
   (claim_C6 (str "Power\n  .core\n    - x &Trust.a &NoDot &B.c\n\nTrust\n  .a\n    - y")
      ⟨3, .Claim (parse_claim (str "x &Trust.a &NoDot &B.c")),
        str "    - x &Trust.a &NoDot &B.c"⟩
      (parse_claim (str "x &Trust.a &NoDot &B.c")) (str "B.c")
      (by decide) rfl (by decide)).2.1 (by decide) (by decide),
   (claim_C6 (str "Power\n  .core\n    - x &Trust.a &NoDot &B.c\n\nTrust\n  .a\n    - y")
      ⟨3, .Claim (parse_claim (str "x &Trust.a &NoDot &B.c")),
        str "    - x &Trust.a &NoDot &B.c"⟩
      (parse_claim (str "x &Trust.a &NoDot &B.c")) (str "Trust.a")
      (by decide) rfl (by decide)).2.2 (by decide)⟩

/-! Filter lemmas for the brief-form counting claim. -/

theorem filter_opScan_ne {t op opx : Str} (hne : opx ≠ op) :
    (opScan t opx).filter (fun u => u.operator == op) = [] := by
  rw [List.filter_eq_nil]
  intro u hu
  rw [opScan_operator hu]
  simp [hne]

theorem filter_opScan_eq {t op : Str} :
    (opScan t op).filter (fun u => u.operator == op) = opScan t op := by
  rw [List.filter_eq_self]
  intro u hu
  rw [opScan_operator hu]
  simp

theorem filter_join_opScan {t op : Str} {ops : List Str}
    (hop : op ∈ ops) (hnodup : ops.Nodup) :
    ((ops.map (opScan t)).flatten).filter (fun u => u.operator == op) =
      opScan t op := by
  induction ops with
  | nil => simp at hop
  | cons o rest ih =>
    rw [List.map_cons, List.flatten_cons, List.filter_append]
    rcases List.mem_cons.mp hop with heq | hmem
    · subst heq
      rw [filter_opScan_eq]
      have hnot : op ∉ rest := (List.nodup_cons.mp hnodup).1
      have hrest : ((rest.map (opScan t)).flatten).filter
          (fun u => u.operator == op) = [] := by
        rw [List.filter_eq_nil]
        intro u hu
        rw [List.mem_flatten] at hu
        obtain ⟨l, hl, hul⟩ := hu
        rw [List.mem_map] at hl
        obtain ⟨o2, ho2, rfl⟩ := hl
        rw [opScan_operator hul]
        simp only [beq_iff_eq]
        rintro rfl
        exact hnot ho2
      rw [hrest, List.append_nil]
    · have hne : o ≠ op := by
        rintro rfl
        exact (List.nodup_cons.mp hnodup).1 hmem
      rw [filter_opScan_ne hne, List.nil_append]
      exact ih hmem (List.nodup_cons.mp hnodup).2

/-- C3 counterexample: for the bare `=` operator the recorded operands keep
their trailing modifier glyphs (`a^`, not `a`), and a usage whose operands
are both empty is dropped rather than recorded. -/
theorem claim_C3_counterexample :
    extract_brief_forms (str "a^ = b") =
      [{ operator := str "=", left_operand := str "a^", right_operand := str "b" }] ∧
    extract_brief_forms (str "=") = [] := by
  decide

/-- C3 amended: for every recorded brief-form usage, the operands are the
whitespace-delimited tokens adjacent to an occurrence of the operator; for
non-`=` operators they are recorded with trailing modifier glyphs stripped,
and one usage is recorded per match even when both operands are empty; for
the bare `=` the operands are kept unstripped and a usage with two empty
operands is dropped. -/
theorem claim_C3_amended :
    (∀ (t : Str) (u : BriefFormUsage), u ∈ extract_brief_forms t →
      (u.operator = str "=" →
        ∃ i, t.get? i = some '=' ∧
          u.left_operand = lastTokenOf (t.take i) ∧
          u.right_operand = firstTokenOf (t.drop (i + 1)) ∧
          (u.left_operand.isEmpty = false ∨ u.right_operand.isEmpty = false)) ∧
      (u.operator ≠ str "=" →
        ∃ i, isPrefixAt u.operator t i = true ∧
          u.left_operand = stripGlyphs (lastTokenOf (t.take i)) ∧
          u.right_operand = stripGlyphs (firstTokenOf (t.drop (i + u.operator.length))))) ∧
    (∀ (t op : Str) (i : Nat), op ∈ operatorsByLength → op ≠ str "=" →
      ¬ (op = str "<=" ∧ containsSub evoOpen t = true) → i ∈ matchIndices op t →
      mkUsage t op i ∈ extract_brief_forms t) := by
  constructor
  · intro t u hu
    obtain ⟨op, hopmem, hmem⟩ := mem_extract_brief_forms hu
    have hopeq := opScan_operator hmem
    constructor
    · intro heq
      rw [hopeq] at heq
      subst heq
      have hus : u ∈ eqScan t := by
        unfold opScan at hmem
        rw [if_neg (fun hand => absurd hand.1 (by decide)), if_pos rfl] at hmem
        exact hmem
      exact eqScan_mem_shape hus
    · intro hneq
      rw [hopeq] at hneq
      obtain ⟨-, i, hpre, hl, hr⟩ := opScan_mem_shape hneq hmem
      rw [hopeq]
      exact ⟨i, hpre, hl, hr⟩
  · intro t op i hopmem hne hskip hi
    have hin := opScan_complete hne hskip hi
    unfold extract_brief_forms
    rw [List.mem_flatten]
    exact ⟨opScan t op, List.mem_map_of_mem _ hopmem, hin⟩

/-- C3 witness: the `=` usage in `a = b` has the adjacent unstripped tokens
as operands, and a `//` match with two empty operands is still recorded. -/
theorem claim_C3_witness :
    (∃ i, (str "a = b").get? i = some '=' ∧
      (⟨str "=", str "a", str "b"⟩ : BriefFormUsage).left_operand =
        lastTokenOf ((str "a = b").take i) ∧
      (⟨str "=", str "a", str "b"⟩ : BriefFormUsage).right_operand =
        firstTokenOf ((str "a = b").drop (i + 1)) ∧
      ((⟨str "=", str "a", str "b"⟩ : BriefFormUsage).left_operand.isEmpty = false ∨
       (⟨str "=", str "a", str "b"⟩ : BriefFormUsage).right_operand.isEmpty = false)) ∧
    mkUsage (str "//") (str "//") 0 ∈ extract_brief_forms (str "//") :=
  ⟨(claim_C3_amended.1 (str "a = b") ⟨str "=", str "a", str "b"⟩ (by decide)).1 rfl,
   claim_C3_amended.2 (str "//") (str "//") 0 (by decide) (by decide)
     (by decide) (by decide)⟩

/-- C4 counterexample: the text `a <= b [<= c` holds an occurrence of `<=`
at position 2, yet no brief-form usage at all is recorded: the presence of
the literal `[<=` makes the extractor skip the `<=` operator entirely. -/
theorem claim_C4_counterexample :
    isPrefixAt (str "<=") (str "a <= b [<= c") 2 = true ∧
    extract_brief_forms (str "a <= b [<= c") = [] := by
  decide

/-- C4 amended: for every non-`=` operator, the recorded usages with that
operator number exactly one per leftmost non-overlapping occurrence of its
symbol (each match position a genuine occurrence) — except that when the
text contains `[<=`, no `<=` usage is recorded at all. -/
theorem claim_C4_amended (t op : Str) (hop : op ∈ operatorsByLength)
    (hne : op ≠ str "=") :
    ((op = str "<=" ∧ containsSub evoOpen t = true) →
      ((extract_brief_forms t).filter (fun u => u.operator == op)).length = 0) ∧
    (¬ (op = str "<=" ∧ containsSub evoOpen t = true) →
      ((extract_brief_forms t).filter (fun u => u.operator == op)).length =
        (matchIndices op t).length ∧
      ∀ i ∈ matchIndices op t, isPrefixAt op t i = true) := by
  have hnodup : operatorsByLength.Nodup := by decide
  have hfilter : (extract_brief_forms t).filter (fun u => u.operator == op) =
      opScan t op := filter_join_opScan hop hnodup
  constructor
  · intro hskip
    rw [hfilter]
    unfold opScan
    rw [if_pos hskip]
    rfl
  · intro hskip
    refine ⟨?_, fun i hi => matchIndices_mem hi⟩
    rw [hfilter]
    unfold opScan
    rw [if_neg hskip, if_neg hne]
    simp

/-- C4 witness: one `<=` usage per occurrence in `a <= b`, the match position
a genuine occurrence; and zero `<=` usages once the text holds `[<=`. -/
theorem claim_C4_witness :
    ((extract_brief_forms (str "a <= b")).filter
      (fun u => u.operator == str "<=")).length =
      (matchIndices (str "<=") (str "a <= b")).length ∧
    isPrefixAt (str "<=") (str "a <= b") 2 = true ∧
    ((extract_brief_forms (str "x <= y [<= z")).filter
      (fun u => u.operator == str "<=")).length = 0 :=
  ⟨((claim_C4_amended (str "a <= b") (str "<=") (by decide) (by decide)).2
      (by decide)).1,
   ((claim_C4_amended (str "a <= b") (str "<=") (by decide) (by decide)).2
      (by decide)).2 2 (by decide),
   (claim_C4_amended (str "x <= y [<= z") (str "<=") (by decide) (by decide)).1
      (by decide)⟩

/-- C10: the byte-index arithmetic of the validator always lands on UTF-8
character boundaries, so no slice panics on any Unicode input: a byte match
of the ASCII opener `[<=` starts on a boundary and ends on one three bytes
later, any `]` byte sits on a boundary with the position after it a boundary
too, and the position after the leading `.` or `-` of a trimmed facet or
claim line is a boundary. Together with the totality of `validate` by
construction, every slice taken by `extract_evolution_marker` and
`tokenize_line` is well-formed. -/
theorem claim_C10 (s : Str) (i j : Nat) (t : Str)
    (h1 : firstMatch (utf8Bytes evoOpen) (utf8Bytes s) = some i)
    (h2 : (utf8Bytes s).get? j = some 0x5D)
    (h3 : (trimStr t).head? = some FACET_PREFIX ∨
          (trimStr t).head? = some CLAIM_PREFIX) :
    (IsCharBoundary s i ∧ IsCharBoundary s (i + 3)) ∧
    (IsCharBoundary s j ∧ IsCharBoundary s (j + 1)) ∧
    IsCharBoundary (trimStr t) 1 := by
  have hpre := firstMatch_isPrefix h1
  have hb0 : (utf8Bytes s).get? (i + 0) = some 0x5B := by
    rw [isPrefixAt_get? hpre (by decide)]
    decide
  have hb2 : (utf8Bytes s).get? (i + 2) = some 0x3D := by
    rw [isPrefixAt_get? hpre (by decide)]
    decide
  have hbd0 := utf8Bytes_ascii_boundary hb0 (by decide)
  have hbd2 := utf8Bytes_ascii_boundary hb2 (by decide)
  have hbdj := utf8Bytes_ascii_boundary h2 (by decide)
  have htrim : IsCharBoundary (trimStr t) 1 := by
    cases htr : trimStr t with
    | nil => rcases h3 with h3 | h3 <;> rw [htr] at h3 <;> simp at h3
    | cons c0 rest =>
      have hc0 : c0.toNat < 0x80 := by
        rcases h3 with h3 | h3 <;> rw [htr] at h3 <;>
          simp only [List.head?_cons, Option.some.injEq] at h3 <;>
          subst h3 <;> decide
      refine ⟨1, ?_⟩
      simp [utf8Bytes_cons, utf8Bytes, utf8EncodeChar_ascii hc0]
  refine ⟨⟨?_, ?_⟩, ⟨hbdj.1, hbdj.2⟩, htrim⟩
  · simpa using hbd0.1
  · have := hbd2.2
    have harith : i + 2 + 1 = i + 3 := by omega
    rwa [harith] at this

/-- C10 witness: the boundary facts at a concrete string holding a two-byte
character before the marker, and a concrete facet line. -/
theorem claim_C10_witness :
    (IsCharBoundary [Char.ofNat 0xE9, '[', '<', '=', 'x', ']'] 2 ∧
     IsCharBoundary [Char.ofNat 0xE9, '[', '<', '=', 'x', ']'] 5) ∧
    (IsCharBoundary [Char.ofNat 0xE9, '[', '<', '=', 'x', ']'] 6 ∧
     IsCharBoundary [Char.ofNat 0xE9, '[', '<', '=', 'x', ']'] 7) ∧
    IsCharBoundary (trimStr (str "  .core")) 1 :=
  claim_C10 [Char.ofNat 0xE9, '[', '<', '=', 'x', ']'] 2 6 (str "  .core")
    (by decide) (by decide) (Or.inl (by decide))
